import Mathlib

/-
  Verification development for the psychological social-deduction game engine
  (`backend/engine.py` and `backend/app.py`).

  Modelling conventions:
  * Python floats are modelled as rationals (ℚ); every operation the engine
    performs on them (+, *, min, max, abs, comparisons) is exact on ℚ.
  * Python dicts keyed by player name are modelled as insertion-ordered
    association lists (`List (String × β)`) with first-occurrence lookup and
    in-place update (`dictSet` replaces the value at the existing key,
    keeping its position, and appends new keys at the end) — exactly the
    iteration-order semantics of a Python dict.
  * `random.uniform` draws are modelled as an explicit stream `ℕ → ℚ` (or one
    stream per agent), consumed in program order; theorems that need the
    draws bounded take that as a hypothesis.
  * The `timestamp` field of a memory event (wall-clock `datetime.now()`) and
    the LLM interface are irrelevant to all verified properties and omitted.
-/

namespace Talos

/-- Association-list lookup with default, mirroring Python `d.get(k, default)`. -/
def dictGetD {β : Type} (m : List (String × β)) (k : String) (d : β) : β :=
  match m with
  | [] => d
  | (k', v) :: rest => if k' = k then v else dictGetD rest k d

/-- Association-list lookup, mirroring Python `k in d` / `d[k]`. -/
def dictGet? {β : Type} (m : List (String × β)) (k : String) : Option β :=
  match m with
  | [] => none
  | (k', v) :: rest => if k' = k then some v else dictGet? rest k

/-- Python `d[k] = v`: update the value in place at an existing key (keeping
its position), or append a fresh binding at the end. -/
def dictSet {β : Type} (m : List (String × β)) (k : String) (v : β) : List (String × β) :=
  match m with
  | [] => [(k, v)]
  | (k', v') :: rest => if k' = k then (k, v) :: rest else (k', v') :: dictSet rest k v

/-- Keys of an association list, in insertion order (Python dict iteration order). -/
def dictKeys {β : Type} (m : List (String × β)) : List String :=
  m.map Prod.fst

-- ==================== Configuration (`Config` in engine.py) ====================

namespace Config

def NUM_DAYS : ℕ := 5
def SUSPICION_WEIGHT : ℚ := 1.5
def TRUST_WEIGHT : ℚ := 1.0
def ANGER_BIAS : ℚ := 0.5

end Config

-- ==================== Data model ====================

/-- `Role` enum. -/
inductive Role where
  | VILLAGER
  | WOLF
deriving DecidableEq, Repr

/-- `GamePhase` enum. -/
inductive GamePhase where
  | DAY_DISCUSSION
  | VOTING
  | NIGHT_ACTION
  | GAME_OVER
deriving DecidableEq, Repr

/-- `EmotionalState` dataclass: anger/fear default 0, confidence defaults 0.5. -/
structure EmotionalState where
  anger : ℚ := 0
  fear : ℚ := 0
  confidence : ℚ := 0.5
deriving DecidableEq, Repr

/-- `MemoryEvent` dataclass (the wall-clock `timestamp` field is omitted). -/
structure MemoryEvent where
  event_type : String
  target : String
  source : String
  impact : ℚ
  turn : ℕ
deriving DecidableEq, Repr

abbrev ScoreMap := List (String × ℚ)

/-- `Agent`: psychological state plus game bookkeeping. -/
structure Agent where
  name : String
  role : Role
  personality : String
  is_human : Bool
  trust_scores : ScoreMap
  suspicion_scores : ScoreMap
  emotional_state : EmotionalState
  memory_log : List MemoryEvent
  alive : Bool
  vote_count : ℕ
  influence : ℚ
deriving DecidableEq, Repr

/-- `Agent._init_scores`: loops 5 times, each iteration drawing two fresh
uniforms from [0.1, 0.3] and writing them at the agent's own name (so the
final stored values are the draws of the last iteration).  The computed
`base_trust` of the source is never used, so it is not modelled. -/
def init_scores (name : String) (rand : ℕ → ℚ) : ScoreMap × ScoreMap :=
  (List.range 5).foldl
    (fun ts i => (dictSet ts.1 name (rand (2 * i)), dictSet ts.2 name (rand (2 * i + 1))))
    ([], [])

/-- `Agent.__init__` with the uniform draws of `_init_scores` passed as a stream. -/
def Agent.init (name : String) (role : Role) (personality : String)
    (is_human : Bool) (rand : ℕ → ℚ) : Agent :=
  let ts := init_scores name rand
  { name := name
    role := role
    personality := personality
    is_human := is_human
    trust_scores := ts.1
    suspicion_scores := ts.2
    emotional_state := {}
    memory_log := []
    alive := true
    vote_count := 0
    influence := 1.0 }

-- ==================== Agent.update_psychology ====================

/-- The `MemoryEvent` assembled at the top of `update_psychology`
(`turn` is the current memory-log length). -/
def updateEvent (a : Agent) (event_type source target : String) (impact : ℚ) : MemoryEvent :=
  { event_type := event_type, target := target, source := source,
    impact := impact, turn := a.memory_log.length }

/-- `Agent.update_psychology`: append a memory event (trimming the log to the
most recent 15 entries whenever its length exceeds 20), then apply the
per-event-type numeric update, then clamp `fear`/`anger` from above by 1 and
`confidence` into [0, 1].  The source's exclusive `if/elif` chain on
`event_type` is written componentwise here (one conditional per mutated
component); the guards are exactly the source's branch conditions. -/
def update_psychology (a : Agent) (event_type source target : String) (impact : ℚ) : Agent :=
  let log0 := a.memory_log ++ [updateEvent a event_type source target impact]
  let log := if log0.length > 20 then log0.drop (log0.length - 15) else log0
  let es := a.emotional_state
  let es1 : EmotionalState :=
    if event_type = "accused" then
      { es with anger := es.anger + impact * 0.3 }
    else if event_type = "voted" then
      { es with anger := es.anger + impact * 0.5,
                confidence := max 0.1 (es.confidence - 0.1) }
    else if event_type = "killed" then
      { es with fear := es.fear + impact * 0.4 }
    else es
  let trust1 : ScoreMap :=
    if event_type = "defended" then
      dictSet a.trust_scores source (min 1 (dictGetD a.trust_scores source 0 + impact * 0.2))
    else if event_type = "rumor" ∧ impact ≤ 0 then
      dictSet a.trust_scores target (min 1 (dictGetD a.trust_scores target 0 + |impact| * 0.15))
    else a.trust_scores
  let susp1 : ScoreMap :=
    if event_type = "accused" then
      dictSet a.suspicion_scores source (min 1 (dictGetD a.suspicion_scores source 0 + impact * 0.2))
    else if event_type = "rumor" ∧ 0 < impact then
      dictSet a.suspicion_scores target (min 1 (dictGetD a.suspicion_scores target 0 + impact * 0.15))
    else a.suspicion_scores
  let es2 : EmotionalState :=
    { anger := min 1 es1.anger
      fear := min 1 es1.fear
      confidence := max 0 (min 1 es1.confidence) }
  { a with memory_log := log, emotional_state := es2,
           trust_scores := trust1, suspicion_scores := susp1 }

/-- One event as fed to `update_psychology`: (event_type, source, target, impact). -/
abbrev EventIn := String × String × String × ℚ

/-- A finite sequence of `update_psychology` calls. -/
def applyEvents (a : Agent) (evs : List EventIn) : Agent :=
  evs.foldl (fun ag e => update_psychology ag e.1 e.2.1 e.2.2.1 e.2.2.2) a

-- ==================== Psychological bounds (C1, C4, C5) ====================

/-- All values of a score map lie in [0, 1]. -/
def boundedMap (m : ScoreMap) : Prop := ∀ p ∈ m, 0 ≤ p.2 ∧ p.2 ≤ 1

instance (m : ScoreMap) : Decidable (boundedMap m) := by
  unfold boundedMap; infer_instance

/-- The psychological invariant of the data model: all stored trust values,
all stored suspicion values, and the three emotional scalars lie in [0, 1]. -/
def PsychInv (a : Agent) : Prop :=
  boundedMap a.trust_scores ∧ boundedMap a.suspicion_scores ∧
  (0 ≤ a.emotional_state.anger ∧ a.emotional_state.anger ≤ 1) ∧
  (0 ≤ a.emotional_state.fear ∧ a.emotional_state.fear ≤ 1) ∧
  (0 ≤ a.emotional_state.confidence ∧ a.emotional_state.confidence ≤ 1)

instance (a : Agent) : Decidable (PsychInv a) := by
  unfold PsychInv; infer_instance

lemma update_psychology_memory (a : Agent) (et s t : String) (i : ℚ) :
    (update_psychology a et s t i).memory_log =
      if (a.memory_log ++ [updateEvent a et s t i]).length > 20 then
        (a.memory_log ++ [updateEvent a et s t i]).drop
          ((a.memory_log ++ [updateEvent a et s t i]).length - 15)
      else a.memory_log ++ [updateEvent a et s t i] := rfl

lemma update_psychology_trust (a : Agent) (et s t : String) (i : ℚ) :
    (update_psychology a et s t i).trust_scores =
      if et = "defended" then
        dictSet a.trust_scores s (min 1 (dictGetD a.trust_scores s 0 + i * 0.2))
      else if et = "rumor" ∧ i ≤ 0 then
        dictSet a.trust_scores t (min 1 (dictGetD a.trust_scores t 0 + |i| * 0.15))
      else a.trust_scores := rfl

lemma update_psychology_susp (a : Agent) (et s t : String) (i : ℚ) :
    (update_psychology a et s t i).suspicion_scores =
      if et = "accused" then
        dictSet a.suspicion_scores s (min 1 (dictGetD a.suspicion_scores s 0 + i * 0.2))
      else if et = "rumor" ∧ 0 < i then
        dictSet a.suspicion_scores t (min 1 (dictGetD a.suspicion_scores t 0 + i * 0.15))
      else a.suspicion_scores := rfl

lemma update_psychology_anger (a : Agent) (et s t : String) (i : ℚ) :
    (update_psychology a et s t i).emotional_state.anger =
      min 1 (if et = "accused" then a.emotional_state.anger + i * 0.3
             else if et = "voted" then a.emotional_state.anger + i * 0.5
             else a.emotional_state.anger) := by
  by_cases h1 : et = "accused" <;> by_cases h2 : et = "voted" <;>
    by_cases h3 : et = "killed" <;>
    simp [update_psychology, h1, h2, h3]

lemma update_psychology_fear (a : Agent) (et s t : String) (i : ℚ) :
    (update_psychology a et s t i).emotional_state.fear =
      min 1 (if et = "killed" then a.emotional_state.fear + i * 0.4
             else a.emotional_state.fear) := by
  by_cases h1 : et = "accused" <;> by_cases h2 : et = "voted" <;>
    by_cases h3 : et = "killed" <;>
    simp_all [update_psychology]

lemma update_psychology_confidence (a : Agent) (et s t : String) (i : ℚ) :
    (update_psychology a et s t i).emotional_state.confidence =
      max 0 (min 1 (if et = "voted" then max 0.1 (a.emotional_state.confidence - 0.1)
                    else a.emotional_state.confidence)) := by
  by_cases h1 : et = "accused" <;> by_cases h2 : et = "voted" <;>
    by_cases h3 : et = "killed" <;>
    simp_all [update_psychology]

lemma dictGetD_zero_bounds {m : ScoreMap} (h : boundedMap m) (k : String) :
    0 ≤ dictGetD m k 0 ∧ dictGetD m k 0 ≤ 1 := by
  induction m with
  | nil => simp [dictGetD]
  | cons p rest ih =>
    obtain ⟨k', v⟩ := p
    simp only [dictGetD]
    split
    · exact h (k', v) (List.mem_cons_self _ _)
    · exact ih (fun q hq => h q (List.mem_cons_of_mem _ hq))

lemma boundedMap_dictSet {k : String} {v : ℚ} (h0 : 0 ≤ v) (h1 : v ≤ 1) :
    ∀ m : ScoreMap, boundedMap m → boundedMap (dictSet m k v) := by
  intro m
  induction m with
  | nil =>
    intro _ p hp
    simp [dictSet] at hp
    simp [hp, h0, h1]
  | cons q rest ih =>
    obtain ⟨k', v'⟩ := q
    intro h p hp
    simp only [dictSet] at hp
    split at hp
    · rcases List.mem_cons.mp hp with h' | h'
      · simp [h', h0, h1]
      · exact h p (List.mem_cons_of_mem _ h')
    · rcases List.mem_cons.mp hp with h' | h'
      · rw [h']
        exact h (k', v') (List.mem_cons_self _ _)
      · exact ih (fun q hq => h q (List.mem_cons_of_mem _ hq)) p h'

lemma update_psychology_inv (a : Agent) (et s t : String) (i : ℚ)
    (himp : et = "rumor" ∨ 0 ≤ i) (h : PsychInv a) :
    PsychInv (update_psychology a et s t i) := by
  obtain ⟨ht, hs, ⟨ha0, ha1⟩, ⟨hf0, hf1⟩, ⟨hc0, hc1⟩⟩ := h
  refine ⟨?_, ?_, ?_, ?_, ?_⟩
  · rw [update_psychology_trust]
    split_ifs with h1 h2
    · have hi : 0 ≤ i := by
        rcases himp with h' | h'
        · rw [h1] at h'; exact absurd h' (by decide)
        · exact h'
      refine boundedMap_dictSet ?_ (min_le_left _ _) _ ht
      exact le_min (by norm_num)
        (add_nonneg (dictGetD_zero_bounds ht s).1 (mul_nonneg hi (by norm_num)))
    · refine boundedMap_dictSet ?_ (min_le_left _ _) _ ht
      exact le_min (by norm_num)
        (add_nonneg (dictGetD_zero_bounds ht t).1 (mul_nonneg (abs_nonneg i) (by norm_num)))
    · exact ht
  · rw [update_psychology_susp]
    split_ifs with h1 h2
    · have hi : 0 ≤ i := by
        rcases himp with h' | h'
        · rw [h1] at h'; exact absurd h' (by decide)
        · exact h'
      refine boundedMap_dictSet ?_ (min_le_left _ _) _ hs
      exact le_min (by norm_num)
        (add_nonneg (dictGetD_zero_bounds hs s).1 (mul_nonneg hi (by norm_num)))
    · refine boundedMap_dictSet ?_ (min_le_left _ _) _ hs
      exact le_min (by norm_num)
        (add_nonneg (dictGetD_zero_bounds hs t).1 (mul_nonneg (le_of_lt h2.2) (by norm_num)))
    · exact hs
  · rw [update_psychology_anger]
    refine ⟨?_, min_le_left _ _⟩
    refine le_min (by norm_num) ?_
    split_ifs with h1 h2
    · have hi : 0 ≤ i := by
        rcases himp with h' | h'
        · rw [h1] at h'; exact absurd h' (by decide)
        · exact h'
      exact add_nonneg ha0 (mul_nonneg hi (by norm_num))
    · have hi : 0 ≤ i := by
        rcases himp with h' | h'
        · rw [h2] at h'; exact absurd h' (by decide)
        · exact h'
      exact add_nonneg ha0 (mul_nonneg hi (by norm_num))
    · exact ha0
  · rw [update_psychology_fear]
    refine ⟨?_, min_le_left _ _⟩
    refine le_min (by norm_num) ?_
    split_ifs with h1
    · have hi : 0 ≤ i := by
        rcases himp with h' | h'
        · rw [h1] at h'; exact absurd h' (by decide)
        · exact h'
      exact add_nonneg hf0 (mul_nonneg hi (by norm_num))
    · exact hf0
  · rw [update_psychology_confidence]
    exact ⟨le_max_left _ _, max_le (by norm_num) (min_le_left _ _)⟩

lemma applyEvents_inv (a : Agent) (evs : List EventIn)
    (himp : ∀ e ∈ evs, e.1 = "rumor" ∨ 0 ≤ e.2.2.2) (h : PsychInv a) :
    PsychInv (applyEvents a evs) := by
  induction evs generalizing a with
  | nil => exact h
  | cons e rest ih =>
    exact ih _ (fun x hx => himp x (List.mem_cons_of_mem _ hx))
      (update_psychology_inv a e.1 e.2.1 e.2.2.1 e.2.2.2
        (himp e (List.mem_cons_self _ _)) h)

lemma init_scores_bounded (name : String) (rand : ℕ → ℚ)
    (hr : ∀ k, 1/10 ≤ rand k ∧ rand k ≤ 3/10) :
    boundedMap (init_scores name rand).1 ∧ boundedMap (init_scores name rand).2 := by
  unfold init_scores
  have key : ∀ (l : List ℕ) (ts : ScoreMap × ScoreMap),
      boundedMap ts.1 → boundedMap ts.2 →
      boundedMap (l.foldl
        (fun ts i => (dictSet ts.1 name (rand (2 * i)), dictSet ts.2 name (rand (2 * i + 1))))
        ts).1 ∧
      boundedMap (l.foldl
        (fun ts i => (dictSet ts.1 name (rand (2 * i)), dictSet ts.2 name (rand (2 * i + 1))))
        ts).2 := by
    intro l
    induction l with
    | nil => intro ts h1 h2; exact ⟨h1, h2⟩
    | cons j rest ih =>
      intro ts h1 h2
      refine ih _ ?_ ?_
      · exact boundedMap_dictSet (le_trans (by norm_num) (hr (2 * j)).1)
          (le_trans (hr (2 * j)).2 (by norm_num)) _ h1
      · exact boundedMap_dictSet (le_trans (by norm_num) (hr (2 * j + 1)).1)
          (le_trans (hr (2 * j + 1)).2 (by norm_num)) _ h2
  exact key (List.range 5) ([], []) (by intro p hp; simp at hp) (by intro p hp; simp at hp)

lemma agent_init_inv (name : String) (role : Role) (personality : String)
    (hu : Bool) (rand : ℕ → ℚ)
    (hr : ∀ k, 1/10 ≤ rand k ∧ rand k ≤ 3/10) :
    PsychInv (Agent.init name role personality hu rand) := by
  obtain ⟨h1, h2⟩ := init_scores_bounded name rand hr
  refine ⟨h1, h2, ?_, ?_, ?_⟩ <;> norm_num [Agent.init]

/-- C1 (amended): for every agent constructed by the engine and every finite
sequence of `update_psychology` calls whose impacts are nonnegative (except
possibly for `rumor` events, whose negative impacts are folded through an
absolute value by the code), all stored trust values, all stored suspicion
values, and the scalars anger, fear, confidence lie in [0, 1] after the
sequence completes. -/
theorem psych_invariant_nonneg_impacts
    (name : String) (role : Role) (personality : String) (hu : Bool)
    (rand : ℕ → ℚ) (evs : List EventIn)
    (hr : ∀ k, 1/10 ≤ rand k ∧ rand k ≤ 3/10)
    (himp : ∀ e ∈ evs, e.1 = "rumor" ∨ 0 ≤ e.2.2.2) :
    PsychInv (applyEvents (Agent.init name role personality hu rand) evs) :=
  applyEvents_inv _ evs himp (agent_init_inv name role personality hu rand hr)

/-- Witness for C1 at a concrete agent and a concrete event sequence. -/
theorem psych_invariant_nonneg_impacts_witness :
    (∀ k : ℕ, 1/10 ≤ (fun _ : ℕ => (1:ℚ)/5) k ∧ (fun _ : ℕ => (1:ℚ)/5) k ≤ 3/10) ∧
    PsychInv (applyEvents (Agent.init "Player" Role.VILLAGER "p" false (fun _ => (1:ℚ)/5))
      [("accused", "Bob", "Player", 1/2)]) :=
  ⟨fun _ => by norm_num,
   psych_invariant_nonneg_impacts "Player" Role.VILLAGER "p" false _ _
     (fun _ => by norm_num)
     (by intro e he; simp at he; rw [he]; right; norm_num)⟩

/-- The initial agent state used by the counterexamples: all `_init_scores`
draws fixed at 0.2, inside the `uniform(0.1, 0.3)` range the source uses. -/
def cexInit : Agent := Agent.init "Player" Role.VILLAGER "p" false (fun _ => 1/5)

/-- C1 is false as stated for arbitrary float impacts: from a freshly
initialized agent, a single `accused` event with impact -1 drives `anger` to
-0.3, outside [0, 1], because the engine clamps anger only from above. -/
theorem anger_below_zero_on_negative_impact :
    (applyEvents cexInit [("accused", "Bob", "Player", -1)]).emotional_state.anger < 0 := by
  have he : applyEvents cexInit [("accused", "Bob", "Player", -1)]
      = update_psychology cexInit "accused" "Bob" "Player" (-1) := rfl
  rw [he, update_psychology_anger]
  simp only [if_pos rfl]
  norm_num [cexInit, Agent.init, min_def]

/-- C4: every `update_psychology` call keeps the memory log at length at most
20 (both a single step and any sequence of calls preserve the bound), and
whenever the append would push the length past 20 — under the bound this
means the log held exactly 20 events — the log is trimmed to exactly the 15
most recent events in their original order (the last 15 of the 21 produced by
the append). -/
theorem memory_log_cap (a : Agent) (et s t : String) (i : ℚ) :
    (a.memory_log.length ≤ 20 → (update_psychology a et s t i).memory_log.length ≤ 20) ∧
    (a.memory_log.length = 20 →
      (update_psychology a et s t i).memory_log =
        (a.memory_log ++ [updateEvent a et s t i]).drop 6 ∧
      (update_psychology a et s t i).memory_log.length = 15) ∧
    (∀ evs : List EventIn, a.memory_log.length ≤ 20 →
      (applyEvents a evs).memory_log.length ≤ 20) := by
  have hstep : ∀ (b : Agent) (et' s' t' : String) (i' : ℚ),
      b.memory_log.length ≤ 20 →
      (update_psychology b et' s' t' i').memory_log.length ≤ 20 := by
    intro b et' s' t' i' hb
    rw [update_psychology_memory]
    split_ifs with hlen
    · rw [List.length_drop]
      omega
    · simp only [List.length_append, List.length_cons, List.length_nil] at hlen ⊢
      omega
  refine ⟨hstep a et s t i, ?_, ?_⟩
  · intro h20
    have hlen : (a.memory_log ++ [updateEvent a et s t i]).length = 21 := by
      simp [h20]
    constructor
    · rw [update_psychology_memory, if_pos (by omega)]
      rw [hlen]
    · rw [update_psychology_memory, if_pos (by omega)]
      rw [List.length_drop, hlen]
  · intro evs
    induction evs generalizing a with
    | nil => intro h; exact h
    | cons e rest ih =>
      intro h
      exact ih _ (hstep a e.1 e.2.1 e.2.2.1 e.2.2.2 h)

/-- Witness for C4 at a concrete agent. -/
theorem memory_log_cap_witness :
    cexInit.memory_log.length ≤ 20 ∧
    (update_psychology cexInit "accused" "Bob" "Player" 1).memory_log.length ≤ 20 :=
  ⟨by decide, (memory_log_cap cexInit "accused" "Bob" "Player" 1).1 (by decide)⟩

/-- C5 (amended): events of type `eliminated` or `attacked` match no branch of
`update_psychology`, so they only append the memory event (with the usual
trimming) and re-clamp the emotional scalars; trust, suspicion, anger and
fear receive no nudge at all. -/
theorem eliminated_attacked_append_only (a : Agent) (et s t : String) (i : ℚ)
    (het : et = "eliminated" ∨ et = "attacked") :
    (update_psychology a et s t i).trust_scores = a.trust_scores ∧
    (update_psychology a et s t i).suspicion_scores = a.suspicion_scores ∧
    (update_psychology a et s t i).emotional_state.anger
      = min 1 a.emotional_state.anger ∧
    (update_psychology a et s t i).emotional_state.fear
      = min 1 a.emotional_state.fear ∧
    (update_psychology a et s t i).emotional_state.confidence
      = max 0 (min 1 a.emotional_state.confidence) ∧
    (update_psychology a et s t i).memory_log =
      (if (a.memory_log ++ [updateEvent a et s t i]).length > 20 then
        (a.memory_log ++ [updateEvent a et s t i]).drop
          ((a.memory_log ++ [updateEvent a et s t i]).length - 15)
       else a.memory_log ++ [updateEvent a et s t i]) := by
  rcases het with h | h <;> subst h <;>
    exact ⟨by rw [update_psychology_trust]; simp,
           by rw [update_psychology_susp]; simp,
           by rw [update_psychology_anger]; simp,
           by rw [update_psychology_fear]; simp,
           by rw [update_psychology_confidence]; simp,
           update_psychology_memory _ _ _ _ _⟩

/-- Witness for C5 at a concrete agent and event. -/
theorem eliminated_attacked_append_only_witness :
    ("eliminated" = "eliminated" ∨ "eliminated" = "attacked") ∧
    (update_psychology cexInit "eliminated" "Bob" "Bob" (1/5)).trust_scores
      = cexInit.trust_scores :=
  ⟨Or.inl rfl,
   (eliminated_attacked_append_only cexInit "eliminated" "Bob" "Bob" (1/5) (Or.inl rfl)).1⟩

/-- C5 is false as stated: an `eliminated` event of impact 0.2 leaves the
listener's anger unchanged (here 0) instead of increasing it by
impact * 0.3 = 0.06 as the accused-style nudge would. -/
theorem eliminated_no_anger_nudge :
    ¬ ((update_psychology cexInit "eliminated" "Bob" "Bob" (1/5)).emotional_state.anger
        = cexInit.emotional_state.anger + (1/5) * (3/10)) := by
  rw [update_psychology_anger]
  simp only [show ("eliminated" = "accused") = False by simp,
    show ("eliminated" = "voted") = False by simp, if_false]
  norm_num [cexInit, Agent.init, min_def]

-- ==================== GameState (engine.py) ====================

/-- `GameState`: the game-level mutable state.  `agents` models the Python
dict in insertion order; the `llm_interface` field (network client) is
omitted. -/
structure GameState where
  agents : List (String × Agent)
  phase : GamePhase
  day : ℕ
  turn : ℕ
  vote_results : List (String × ℕ)
  night_kill : Option String
  winner : Option String
deriving DecidableEq, Repr

/-- The personality strings assigned to the five AI agents in `_init_agents`. -/
def personalities : List String :=
  ["理性分析型，说话有逻辑但冷淡",
   "热情激进，容易激动",
   "谨慎观察型，很少发言但观察细致",
   "社交达人，喜欢建立联盟",
   "怀疑一切，对谁都不完全信任"]

/-- The five AI agent names of `_init_agents`. -/
def ai_names : List String := ["Alice", "Bob", "Charlie", "Diana", "Eve"]

/-- `GameState._init_agents`: `roles` is `[WOLF] + [VILLAGER]*4` after
`random.shuffle`, modelled as an arbitrary permutation of that list (theorems
take the permutation as a hypothesis).  The AI agents are built by
`zip(names, roles)` with `personalities[i]` (default "普通村民"), then the
human player "Player" is appended with the `VILLAGER` role.  `rand` supplies
each agent's `_init_scores` draw stream. -/
def init_agents (roles : List Role) (rand : String → ℕ → ℚ) : List (String × Agent) :=
  (ai_names.zip roles).mapIdx
    (fun i p => (p.1, Agent.init p.1 p.2 (personalities.getD i "普通村民") false (rand p.1)))
  ++ [("Player", Agent.init "Player" Role.VILLAGER "人类玩家" true (rand "Player"))]

/-- `GameState.__init__` (with shuffled roles and draw streams passed in). -/
def GameState.create (roles : List Role) (rand : String → ℕ → ℚ) : GameState :=
  { agents := init_agents roles rand
    phase := GamePhase.DAY_DISCUSSION
    day := 1
    turn := 0
    vote_results := []
    night_kill := none
    winner := none }

/-- `GameState.get_alive_players`. -/
def get_alive_players (gs : GameState) : List String :=
  (gs.agents.filter (fun p => p.2.alive)).map Prod.fst

/-- `GameState.get_wolf_count`. -/
def get_wolf_count (gs : GameState) : ℕ :=
  gs.agents.countP (fun p => p.2.role == Role.WOLF && p.2.alive)

/-- `GameState.get_villager_count`. -/
def get_villager_count (gs : GameState) : ℕ :=
  gs.agents.countP (fun p => p.2.role == Role.VILLAGER && p.2.alive)

/-- The assignment pair `self.winner = w; self.phase = GAME_OVER` performed
by every winning branch of `check_game_end`. -/
def setGameOver (gs : GameState) (w : String) : GameState :=
  { gs with winner := some w, phase := GamePhase.GAME_OVER }

/-- `GameState.check_game_end`: returns the Python boolean result together
with the (possibly mutated) state.  The two count reads are inlined. -/
def check_game_end (gs : GameState) : Bool × GameState :=
  if get_wolf_count gs = 0 then
    (true, setGameOver gs "villagers")
  else if get_wolf_count gs ≥ get_villager_count gs then
    (true, setGameOver gs "wolves")
  else if gs.day > Config.NUM_DAYS then
    (true, setGameOver gs "wolves")
  else (false, gs)

lemma get_wolf_count_setGameOver (gs : GameState) (w : String) :
    get_wolf_count (setGameOver gs w) = get_wolf_count gs := rfl

lemma get_villager_count_setGameOver (gs : GameState) (w : String) :
    get_villager_count (setGameOver gs w) = get_villager_count gs := rfl

lemma day_setGameOver (gs : GameState) (w : String) :
    (setGameOver gs w).day = gs.day := rfl

lemma setGameOver_idem (gs : GameState) (w : String) :
    setGameOver (setGameOver gs w) w = setGameOver gs w := rfl

/-- C3: `check_game_end` evaluates the win conditions in priority order:
zero living wolves means the villagers win; otherwise wolves at least as
numerous as villagers means the wolves win; otherwise a day beyond
`NUM_DAYS` (5) means the wolves win; otherwise no winner is set, nothing is
mutated, and the call returns false.  Each winning branch sets both `winner`
and `phase = GAME_OVER` (that is `setGameOver`). -/
theorem check_game_end_cases (gs : GameState) :
    (get_wolf_count gs = 0 →
      check_game_end gs = (true, setGameOver gs "villagers")) ∧
    (get_wolf_count gs ≠ 0 → get_wolf_count gs ≥ get_villager_count gs →
      check_game_end gs = (true, setGameOver gs "wolves")) ∧
    (get_wolf_count gs ≠ 0 → get_wolf_count gs < get_villager_count gs →
      gs.day > Config.NUM_DAYS →
      check_game_end gs = (true, setGameOver gs "wolves")) ∧
    (get_wolf_count gs ≠ 0 → get_wolf_count gs < get_villager_count gs →
      gs.day ≤ Config.NUM_DAYS →
      check_game_end gs = (false, gs)) := by
  unfold check_game_end
  refine ⟨fun h1 => ?_, fun h1 h2 => ?_, fun h1 h2 h3 => ?_, fun h1 h2 h3 => ?_⟩
  · rw [if_pos h1]
  · rw [if_neg h1, if_pos h2]
  · rw [if_neg h1, if_neg (not_le.mpr h2), if_pos h3]
  · rw [if_neg h1, if_neg (not_le.mpr h2), if_neg (not_lt.mpr h3)]

/-- A concrete all-villager game used by witnesses. -/
def gsAllVillagers : GameState :=
  GameState.create [Role.VILLAGER, Role.VILLAGER, Role.VILLAGER, Role.VILLAGER, Role.VILLAGER]
    (fun _ _ => 1/5)

/-- Witness for C3: the all-villager game has zero living wolves, so the
first branch fires. -/
theorem check_game_end_cases_witness :
    get_wolf_count gsAllVillagers = 0 ∧
    check_game_end gsAllVillagers = (true, setGameOver gsAllVillagers "villagers") :=
  ⟨by decide, (check_game_end_cases gsAllVillagers).1 (by decide)⟩

/-- C6: `check_game_end` is idempotent.  Once a call has returned `true`
(setting some winner and `GAME_OVER`), calling it again on the resulting
state — whose agent roster and day it never touched — returns `true` with
the identical state: same winner, same phase, and no other mutation. -/
theorem check_game_end_idempotent (gs : GameState)
    (h : (check_game_end gs).1 = true) :
    check_game_end (check_game_end gs).2 = (true, (check_game_end gs).2) := by
  by_cases h1 : get_wolf_count gs = 0
  · have e1 : check_game_end gs = (true, setGameOver gs "villagers") := by
      unfold check_game_end; rw [if_pos h1]
    rw [e1]
    unfold check_game_end
    simp only [get_wolf_count_setGameOver]
    rw [if_pos h1, setGameOver_idem]
  · by_cases h2 : get_wolf_count gs ≥ get_villager_count gs
    · have e1 : check_game_end gs = (true, setGameOver gs "wolves") := by
        unfold check_game_end; rw [if_neg h1, if_pos h2]
      rw [e1]
      unfold check_game_end
      simp only [get_wolf_count_setGameOver, get_villager_count_setGameOver]
      rw [if_neg h1, if_pos h2, setGameOver_idem]
    · by_cases h3 : gs.day > Config.NUM_DAYS
      · have e1 : check_game_end gs = (true, setGameOver gs "wolves") := by
          unfold check_game_end; rw [if_neg h1, if_neg h2, if_pos h3]
        rw [e1]
        unfold check_game_end
        simp only [get_wolf_count_setGameOver, get_villager_count_setGameOver,
          day_setGameOver]
        rw [if_neg h1, if_neg h2, if_pos h3, setGameOver_idem]
      · exfalso
        have e1 : check_game_end gs = (false, gs) := by
          unfold check_game_end; rw [if_neg h1, if_neg h2, if_neg h3]
        rw [e1] at h
        exact Bool.false_ne_true h

/-- Witness for C6 at the terminal all-villager game. -/
theorem check_game_end_idempotent_witness :
    (check_game_end gsAllVillagers).1 = true ∧
    check_game_end (check_game_end gsAllVillagers).2 =
      (true, (check_game_end gsAllVillagers).2) :=
  ⟨by decide, check_game_end_idempotent gsAllVillagers (by decide)⟩

/-- C10: in every freshly constructed game the human agent "Player" is
appended with the `VILLAGER` role and `is_human = true`; the single `WOLF`
role is shuffled only among the five AI agents, so exactly one (non-human,
AI-named) agent is a wolf and the human can never be the wolf. -/
theorem human_never_wolf (roles : List Role) (rand : String → ℕ → ℚ)
    (hperm : roles.Perm [Role.WOLF, Role.VILLAGER, Role.VILLAGER, Role.VILLAGER,
      Role.VILLAGER]) :
    ((dictGet? (init_agents roles rand) "Player").map (fun a => (a.role, a.is_human))
        = some (Role.VILLAGER, true)) ∧
    ((init_agents roles rand).filter (fun p => p.2.role == Role.WOLF)).length = 1 ∧
    (∀ p ∈ init_agents roles rand, p.2.role = Role.WOLF →
        p.2.is_human = false ∧ p.1 ∈ ai_names) := by
  have hlen : roles.length = 5 := hperm.length_eq
  match roles, hperm, hlen with
  | [r1, r2, r3, r4, r5], hperm, _ =>
    cases r1 <;> cases r2 <;> cases r3 <;> cases r4 <;> cases r5 <;>
      first
        | exact absurd hperm (by decide)
        | (refine ⟨?_, ?_, ?_⟩ <;>
            simp [init_agents, ai_names, personalities, Agent.init, dictGet?])

/-- Witness for C10 at a concrete shuffled role list. -/
theorem human_never_wolf_witness :
    ([Role.VILLAGER, Role.WOLF, Role.VILLAGER, Role.VILLAGER, Role.VILLAGER].Perm
        [Role.WOLF, Role.VILLAGER, Role.VILLAGER, Role.VILLAGER, Role.VILLAGER]) ∧
    ((dictGet? (init_agents
        [Role.VILLAGER, Role.WOLF, Role.VILLAGER, Role.VILLAGER, Role.VILLAGER]
        (fun _ _ => 1/5)) "Player").map (fun a => (a.role, a.is_human))
      = some (Role.VILLAGER, true)) :=
  ⟨by decide,
   (human_never_wolf _ (fun _ _ => 1/5) (by decide)).1⟩

-- ==================== Agent.make_vote_decision (C2) ====================

/-- The per-candidate vote score of `make_vote_decision` before the random
factor: `suspicion * SUSPICION_WEIGHT + anger * ANGER_BIAS - trust *
TRUST_WEIGHT`, with 0.3 defaults for unseen candidates. -/
def base_vote_score (a : Agent) (p : String) : ℚ :=
  dictGetD a.suspicion_scores p 0.3 * Config.SUSPICION_WEIGHT +
  a.emotional_state.anger * Config.ANGER_BIAS -
  dictGetD a.trust_scores p 0.3 * Config.TRUST_WEIGHT

/-- The score-building loop of `make_vote_decision`: walk the roster, skip
the agent itself, store `base score + uniform(-0.1, 0.1)` into the `scores`
dict (one fresh draw per processed candidate). -/
def vote_scores_go (a : Agent) (rand : ℕ → ℚ) :
    List String → ScoreMap → ℕ → ScoreMap
  | [], acc, _ => acc
  | p :: ps, acc, k =>
      if p = a.name then vote_scores_go a rand ps acc k
      else vote_scores_go a rand ps (dictSet acc p (base_vote_score a p + rand k)) (k + 1)

/-- The body of Python `max(items, key=lambda x: x[1])`: scan left to right,
replacing the best only on a strictly greater value (so the first maximal
item wins). -/
def pyFold (x : String × ℚ) (xs : List (String × ℚ)) : String × ℚ :=
  xs.foldl (fun best y => if y.2 > best.2 then y else best) x

/-- Python `max(scores.items(), key=lambda x: x[1])` as a partial maximum. -/
def pyMaxBy : List (String × ℚ) → Option (String × ℚ)
  | [] => none
  | x :: xs => some (pyFold x xs)

/-- `Agent.make_vote_decision`: build the score dict and return the
highest-scoring player, or the agent's own name if the dict is empty. -/
def make_vote_decision (a : Agent) (alive_players : List String) (rand : ℕ → ℚ) : String :=
  match pyMaxBy (vote_scores_go a rand alive_players [] 0) with
  | none => a.name
  | some x => x.1

/-- First-occurrence deduplication given an already-seen set: the key order a
Python dict acquires as keys are inserted repeatedly. -/
def firstDedup : List String → List String → List String
  | [], _ => []
  | x :: xs, seen =>
      if x ∈ seen then firstDedup xs seen else x :: firstDedup xs (x :: seen)

-- ---------- dictionary lemmas ----------

lemma dictKeys_dictSet_mem {β : Type} {m : List (String × β)} {k : String} (v : β)
    (h : k ∈ dictKeys m) : dictKeys (dictSet m k v) = dictKeys m := by
  induction m with
  | nil => simp [dictKeys] at h
  | cons q rest ih =>
    obtain ⟨k', v'⟩ := q
    by_cases hk : k' = k
    · subst hk
      simp [dictSet, dictKeys]
    · have hmem : k ∈ dictKeys rest := by
        simp [dictKeys] at h
        rcases h with h | h
        · exact absurd h.symm hk
        · simpa [dictKeys] using h
      simp [dictSet, dictKeys, hk]
      exact ih hmem

lemma dictKeys_dictSet_not_mem {β : Type} {m : List (String × β)} {k : String} (v : β)
    (h : k ∉ dictKeys m) : dictKeys (dictSet m k v) = dictKeys m ++ [k] := by
  induction m with
  | nil => simp [dictSet, dictKeys]
  | cons q rest ih =>
    obtain ⟨k', v'⟩ := q
    have hk : k' ≠ k := by
      intro hkk
      exact h (by simp [dictKeys, hkk])
    have hrest : k ∉ dictKeys rest := by
      intro hkk
      exact h (by simp [dictKeys]; right; simpa [dictKeys] using hkk)
    simp [dictSet, dictKeys, hk]
    exact ih hrest

lemma dictSet_entries {β : Type} {m : List (String × β)} {k : String} {v : β} :
    ∀ q ∈ dictSet m k v, q = (k, v) ∨ q ∈ m := by
  induction m with
  | nil => intro q hq; simp [dictSet] at hq; exact Or.inl hq
  | cons p rest ih =>
    obtain ⟨k', v'⟩ := p
    intro q hq
    simp only [dictSet] at hq
    split at hq
    · rcases List.mem_cons.mp hq with h | h
      · exact Or.inl h
      · exact Or.inr (List.mem_cons_of_mem _ h)
    · rcases List.mem_cons.mp hq with h | h
      · exact Or.inr (h ▸ List.mem_cons_self _ _)
      · rcases ih q h with h' | h'
        · exact Or.inl h'
        · exact Or.inr (List.mem_cons_of_mem _ h')

lemma mem_of_dictGetD {β : Type} {m : List (String × β)} {k : String} (d : β)
    (h : k ∈ dictKeys m) : (k, dictGetD m k d) ∈ m := by
  induction m with
  | nil => simp [dictKeys] at h
  | cons q rest ih =>
    obtain ⟨k', v'⟩ := q
    by_cases hk : k' = k
    · subst hk
      simp [dictGetD]
    · have hmem : k ∈ dictKeys rest := by
        simp [dictKeys] at h
        rcases h with h | h
        · exact absurd h.symm hk
        · simpa [dictKeys] using h
      simp only [dictGetD, if_neg hk]
      exact List.mem_cons_of_mem _ (ih hmem)

lemma dictGetD_of_mem_nodup {β : Type} {m : List (String × β)} {k : String} {v : β} (d : β)
    (hnd : (dictKeys m).Nodup) (h : (k, v) ∈ m) : dictGetD m k d = v := by
  induction m with
  | nil => simp at h
  | cons q rest ih =>
    obtain ⟨k', v'⟩ := q
    have hnd' : (dictKeys rest).Nodup := by
      simpa [dictKeys] using (List.nodup_cons.mp (by simpa [dictKeys] using hnd)).2
    rcases List.mem_cons.mp h with h' | h'
    · injection h' with hk hv
      subst hk
      subst hv
      simp [dictGetD]
    · have hk : k' ≠ k := by
        intro he
        subst he
        have hmem : k' ∈ dictKeys rest := by
          simpa [dictKeys] using List.mem_map_of_mem Prod.fst h'
        exact (List.nodup_cons.mp (by simpa [dictKeys] using hnd)).1 hmem
      simp only [dictGetD, if_neg hk]
      exact ih hnd' h'

lemma dictKeys_nil {β : Type} : dictKeys ([] : List (String × β)) = [] := rfl

-- ---------- firstDedup lemmas ----------

lemma firstDedup_congr_seen : ∀ (l s1 s2 : List String),
    (∀ x, x ∈ s1 ↔ x ∈ s2) → firstDedup l s1 = firstDedup l s2 := by
  intro l
  induction l with
  | nil => intro s1 s2 _; rfl
  | cons x xs ih =>
    intro s1 s2 hs
    simp only [firstDedup]
    by_cases hx : x ∈ s1
    · rw [if_pos hx, if_pos ((hs x).mp hx)]
      exact ih s1 s2 hs
    · rw [if_neg hx, if_neg (fun hc => hx ((hs x).mpr hc))]
      congr 1
      refine ih _ _ ?_
      intro y
      simp [hs y]

lemma mem_firstDedup : ∀ (l s : List String) (x : String), x ∈ firstDedup l s → x ∈ l := by
  intro l
  induction l with
  | nil => intro s x hx; simp [firstDedup] at hx
  | cons y ys ih =>
    intro s x hx
    simp only [firstDedup] at hx
    split at hx
    · exact List.mem_cons_of_mem _ (ih s x hx)
    · rcases List.mem_cons.mp hx with h | h
      · rw [h]; exact List.mem_cons_self _ _
      · exact List.mem_cons_of_mem _ (ih _ x h)

lemma firstDedup_not_mem_seen : ∀ (l s : List String) (x : String),
    x ∈ firstDedup l s → x ∉ s := by
  intro l
  induction l with
  | nil => intro s x hx; simp [firstDedup] at hx
  | cons y ys ih =>
    intro s x hx
    simp only [firstDedup] at hx
    split at hx
    · exact ih s x hx
    · rcases List.mem_cons.mp hx with h | h
      · intro hc
        rename_i hy
        exact hy (h ▸ hc)
      · intro hc
        exact ih _ x h (List.mem_cons_of_mem _ hc)

lemma firstDedup_nodup : ∀ (l s : List String), (firstDedup l s).Nodup := by
  intro l
  induction l with
  | nil => intro s; simp [firstDedup]
  | cons y ys ih =>
    intro s
    simp only [firstDedup]
    split
    · exact ih s
    · refine List.nodup_cons.mpr ⟨?_, ih _⟩
      intro hc
      exact firstDedup_not_mem_seen ys (y :: s) y hc (List.mem_cons_self _ _)

lemma firstDedup_cons_ne_nil (x : String) (xs : List String) :
    firstDedup (x :: xs) [] ≠ [] := by
  simp [firstDedup]

-- ---------- score-dict shape lemmas ----------

lemma vote_scores_go_spec (a : Agent) (rand : ℕ → ℚ) :
    ∀ (ps : List String) (acc : ScoreMap) (k : ℕ),
      (dictKeys acc).Nodup →
      dictKeys (vote_scores_go a rand ps acc k)
        = dictKeys acc ++ firstDedup (ps.filter (fun p => p ≠ a.name)) (dictKeys acc) ∧
      (dictKeys (vote_scores_go a rand ps acc k)).Nodup := by
  intro ps
  induction ps with
  | nil =>
    intro acc k h
    simp [vote_scores_go, firstDedup, h]
  | cons p ps ih =>
    intro acc k h
    simp only [vote_scores_go]
    by_cases hp : p = a.name
    · rw [if_pos hp]
      obtain ⟨ih1, ih2⟩ := ih acc k h
      refine ⟨?_, ih2⟩
      rw [ih1]
      congr 2
      simp [hp]
    · rw [if_neg hp]
      by_cases hmem : p ∈ dictKeys acc
      · have hkeys := dictKeys_dictSet_mem (β := ℚ) (m := acc)
          (base_vote_score a p + rand k) hmem
        have hnd : (dictKeys (dictSet acc p (base_vote_score a p + rand k))).Nodup := by
          rw [hkeys]; exact h
        obtain ⟨ih1, ih2⟩ := ih (dictSet acc p (base_vote_score a p + rand k)) (k + 1) hnd
        refine ⟨?_, ih2⟩
        rw [ih1, hkeys]
        congr 1
        have hfil : (p :: ps).filter (fun q => q ≠ a.name)
            = p :: ps.filter (fun q => q ≠ a.name) := by
          simp [List.filter_cons, hp]
        rw [hfil]
        simp only [firstDedup, if_pos hmem]
      · have hkeys := dictKeys_dictSet_not_mem (β := ℚ) (m := acc)
          (base_vote_score a p + rand k) hmem
        have hnd : (dictKeys (dictSet acc p (base_vote_score a p + rand k))).Nodup := by
          rw [hkeys]
          refine List.Nodup.append h (List.nodup_singleton p) ?_
          intro x hx hx'
          simp at hx'
          exact hmem (hx' ▸ hx)
        obtain ⟨ih1, ih2⟩ := ih (dictSet acc p (base_vote_score a p + rand k)) (k + 1) hnd
        refine ⟨?_, ih2⟩
        rw [ih1, hkeys]
        have hfil : (p :: ps).filter (fun q => q ≠ a.name)
            = p :: ps.filter (fun q => q ≠ a.name) := by
          simp [List.filter_cons, hp]
        rw [hfil]
        simp only [firstDedup, if_neg hmem]
        rw [List.append_assoc]
        congr 1
        rw [List.singleton_append]
        congr 1
        refine firstDedup_congr_seen _ _ _ ?_
        intro x
        simp [or_comm]

lemma vote_scores_go_values (a : Agent) (rand : ℕ → ℚ) :
    ∀ (ps : List String) (acc : ScoreMap) (k : ℕ),
      (∀ q ∈ acc, ∃ j, q.2 = base_vote_score a q.1 + rand j) →
      ∀ q ∈ vote_scores_go a rand ps acc k, ∃ j, q.2 = base_vote_score a q.1 + rand j := by
  intro ps
  induction ps with
  | nil =>
    intro acc k h
    simpa [vote_scores_go] using h
  | cons p ps ih =>
    intro acc k h q hq
    simp only [vote_scores_go] at hq
    split at hq
    · exact ih acc k h q hq
    · refine ih _ (k + 1) ?_ q hq
      intro r hr
      rcases dictSet_entries r hr with h' | h'
      · exact ⟨k, by simp [h']⟩
      · exact h r h'

lemma assoc_eq_map_keys {β : Type} (d : β) :
    ∀ (m : List (String × β)), (dictKeys m).Nodup →
      m = (dictKeys m).map (fun c => (c, dictGetD m c d)) := by
  intro m
  induction m with
  | nil => intro _; rfl
  | cons q rest ih =>
    intro h
    obtain ⟨k', v'⟩ := q
    have hpair : k' ∉ dictKeys rest ∧ (dictKeys rest).Nodup := List.nodup_cons.mp h
    have hnotin : k' ∉ dictKeys rest := hpair.1
    have h2 : (dictKeys rest).Nodup := hpair.2
    have hd : dictGetD ((k', v') :: rest) k' d = v' := by simp [dictGetD]
    simp only [dictKeys, List.map_cons]
    rw [hd]
    congr 1
    have hcongr : ∀ c ∈ List.map Prod.fst rest,
        (fun c => (c, dictGetD ((k', v') :: rest) c d)) c
          = (fun c => (c, dictGetD rest c d)) c := by
      intro c hc
      have hck : k' ≠ c := by
        intro he
        exact hnotin (by simpa [dictKeys, he] using hc)
      simp [dictGetD, hck]
    rw [List.map_congr_left hcongr]
    exact ih h2

/-- Python `max` semantics: the scan keeps the first item attaining the
maximum value — everything strictly before it is strictly smaller, everything
after it is no larger. -/
lemma pyFold_spec : ∀ (xs : List (String × ℚ)) (x : String × ℚ),
    ∃ l1 l2, x :: xs = l1 ++ pyFold x xs :: l2 ∧
      (∀ y ∈ l1, y.2 < (pyFold x xs).2) ∧ (∀ y ∈ l2, y.2 ≤ (pyFold x xs).2) := by
  intro xs
  induction xs with
  | nil =>
    intro x
    exact ⟨[], [], rfl, by simp, by simp⟩
  | cons y ys ih =>
    intro x
    have hstep : pyFold x (y :: ys) = pyFold (if y.2 > x.2 then y else x) ys := rfl
    by_cases hy : y.2 > x.2
    · rw [hstep, if_pos hy]
      obtain ⟨l1, l2, hdec, hlt, hle⟩ := ih y
      have hxr : x.2 < (pyFold y ys).2 := by
        rcases l1 with _ | ⟨z, zs⟩
        · injection hdec with h1 h2
          rw [← h1]
          exact hy
        · injection hdec with h1 h2
          have hz : z.2 < (pyFold y ys).2 := hlt z (List.mem_cons_self _ _)
          rw [h1] at hy
          exact lt_trans hy hz
      refine ⟨x :: l1, l2, ?_, ?_, hle⟩
      · rw [List.cons_append, ← hdec]
      · intro w hw
        rcases List.mem_cons.mp hw with h | h
        · rw [h]; exact hxr
        · exact hlt w h
    · rw [hstep, if_neg hy]
      obtain ⟨l1, l2, hdec, hlt, hle⟩ := ih x
      have hyx : y.2 ≤ x.2 := not_lt.mp hy
      rcases l1 with _ | ⟨z, zs⟩
      · injection hdec with h1 h2
        refine ⟨[], y :: l2, ?_, by simp, ?_⟩
        · simp only [List.nil_append]
          rw [← h1, ← h2]
        · intro w hw
          rcases List.mem_cons.mp hw with h | h
          · rw [h, ← h1]
            exact hyx
          · exact hle w h
      · injection hdec with h1 h2
        have h2' : ys = zs ++ pyFold x ys :: l2 := h2
        refine ⟨x :: y :: zs, l2, ?_, ?_, hle⟩
        · simp only [List.cons_append]
          rw [← h2']
        · intro w hw
          have hzr : z.2 < (pyFold x ys).2 := hlt z (List.mem_cons_self _ _)
          have hxr : x.2 < (pyFold x ys).2 := by
            conv_lhs => rw [h1]
            exact hzr
          rcases List.mem_cons.mp hw with h | h
          · rw [h]; exact hxr
          · rcases List.mem_cons.mp h with h' | h'
            · rw [h']
              exact lt_of_le_of_lt hyx hxr
            · exact hlt w (List.mem_cons_of_mem _ h')

/-- The perturbation each candidate ends up with in the score dict: the
difference between its stored score and its base score (0 off the dict). -/
def storedPert (a : Agent) (alive : List String) (rand : ℕ → ℚ) (c : String) : ℚ :=
  if c ∈ dictKeys (vote_scores_go a rand alive [] 0)
  then dictGetD (vote_scores_go a rand alive [] 0) c 0 - base_vote_score a c
  else 0

/-- C2: `make_vote_decision` returns the agent's own name exactly when the
roster holds no other candidate; otherwise it returns another roster member
whose score — `suspicion*1.5 + anger*0.5 - trust*1.0` with 0.3 defaults for
unseen names, plus a per-candidate perturbation lying in [-0.1, 0.1] — is
maximal among the distinct other candidates, with exact ties broken in
favour of the first-encountered candidate in roster order. -/
theorem make_vote_decision_argmax (a : Agent) (alive : List String) (rand : ℕ → ℚ)
    (hb : ∀ k, |rand k| ≤ 1/10) :
    (make_vote_decision a alive rand = a.name ↔ ∀ p ∈ alive, p = a.name) ∧
    ((∃ p ∈ alive, p ≠ a.name) →
      make_vote_decision a alive rand ∈ alive ∧
      make_vote_decision a alive rand ≠ a.name ∧
      ∃ pert : String → ℚ, (∀ c, |pert c| ≤ 1/10) ∧
        ∃ l1 l2 : List String,
          firstDedup (alive.filter (fun p => p ≠ a.name)) []
            = l1 ++ make_vote_decision a alive rand :: l2 ∧
          (∀ c ∈ l1, base_vote_score a c + pert c
            < base_vote_score a (make_vote_decision a alive rand)
              + pert (make_vote_decision a alive rand)) ∧
          (∀ c ∈ l1 ++ make_vote_decision a alive rand :: l2,
            base_vote_score a c + pert c
              ≤ base_vote_score a (make_vote_decision a alive rand)
                + pert (make_vote_decision a alive rand))) := by
  obtain ⟨hkeys, hnodup⟩ := vote_scores_go_spec a rand alive [] 0 (by simp [dictKeys])
  rw [dictKeys_nil, List.nil_append] at hkeys
  by_cases hall : ∀ p ∈ alive, p = a.name
  · have hfil : alive.filter (fun p => p ≠ a.name) = [] := by
      rw [List.filter_eq_nil_iff]
      intro p hp
      simp [hall p hp]
    have hkeysnil : dictKeys (vote_scores_go a rand alive [] 0) = [] := by
      rw [hkeys, hfil]
      rfl
    have hSnil : vote_scores_go a rand alive [] 0 = [] := List.map_eq_nil_iff.mp hkeysnil
    refine ⟨⟨fun _ => hall, fun _ => ?_⟩, fun hx => ?_⟩
    · unfold make_vote_decision
      rw [hSnil]
      rfl
    · obtain ⟨p, hp, hpn⟩ := hx
      exact absurd (hall p hp) hpn
  · push_neg at hall
    obtain ⟨p0, hp0, hp0n⟩ := hall
    have hfil_mem : p0 ∈ alive.filter (fun p => p ≠ a.name) := by
      simp [List.mem_filter, hp0, hp0n]
    have hfil_ne : alive.filter (fun p => p ≠ a.name) ≠ [] := by
      intro h
      rw [h] at hfil_mem
      simp at hfil_mem
    have hfd_ne : firstDedup (alive.filter (fun p => p ≠ a.name)) [] ≠ [] := by
      rcases hlist : alive.filter (fun p => p ≠ a.name) with _ | ⟨x, xs⟩
      · exact absurd hlist hfil_ne
      · exact firstDedup_cons_ne_nil x xs
    have hS_ne : vote_scores_go a rand alive [] 0 ≠ [] := by
      intro h
      apply hfd_ne
      rw [← hkeys, h]
      rfl
    obtain ⟨s0, srest, hSdec⟩ :
        ∃ s0 srest, vote_scores_go a rand alive [] 0 = s0 :: srest := by
      rcases h : vote_scores_go a rand alive [] 0 with _ | ⟨s0, srest⟩
      · exact absurd h hS_ne
      · exact ⟨s0, srest, rfl⟩
    have hmv : make_vote_decision a alive rand = (pyFold s0 srest).1 := by
      unfold make_vote_decision
      rw [hSdec]
      rfl
    obtain ⟨L1, L2, hdec, hlt, hle⟩ := pyFold_spec srest s0
    have hSdec2 : vote_scores_go a rand alive [] 0 = L1 ++ pyFold s0 srest :: L2 := by
      rw [hSdec, hdec]
    have hrS : pyFold s0 srest ∈ vote_scores_go a rand alive [] 0 := by
      rw [hSdec2]
      exact List.mem_append_right _ (List.mem_cons_self _ _)
    have hr1keys : (pyFold s0 srest).1 ∈ dictKeys (vote_scores_go a rand alive [] 0) :=
      List.mem_map_of_mem Prod.fst hrS
    have hr1fil : (pyFold s0 srest).1 ∈ alive.filter (fun p => p ≠ a.name) :=
      mem_firstDedup _ _ _ (hkeys ▸ hr1keys)
    have hr1alive : (pyFold s0 srest).1 ∈ alive := (List.mem_filter.mp hr1fil).1
    have hr1ne : (pyFold s0 srest).1 ≠ a.name := by
      have := (List.mem_filter.mp hr1fil).2
      simpa using this
    have hvals : ∀ q ∈ vote_scores_go a rand alive [] 0,
        ∃ j, q.2 = base_vote_score a q.1 + rand j :=
      vote_scores_go_values a rand alive [] 0 (by intro q hq; simp at hq)
    have hscore : ∀ q ∈ vote_scores_go a rand alive [] 0,
        base_vote_score a q.1 + storedPert a alive rand q.1 = q.2 := by
      intro q hq
      have hq1 : q.1 ∈ dictKeys (vote_scores_go a rand alive [] 0) :=
        List.mem_map_of_mem Prod.fst hq
      rw [storedPert, if_pos hq1,
        dictGetD_of_mem_nodup 0 hnodup (show (q.1, q.2) ∈ _ from hq)]
      ring
    refine ⟨⟨fun h => ?_, fun h => absurd (h p0 hp0) hp0n⟩, fun _ => ?_⟩
    · rw [hmv] at h
      exact (hr1ne h).elim
    refine ⟨by rw [hmv]; exact hr1alive, by rw [hmv]; exact hr1ne, ?_⟩
    refine ⟨storedPert a alive rand, ?_, ?_⟩
    · intro c
      by_cases hc : c ∈ dictKeys (vote_scores_go a rand alive [] 0)
      · rw [storedPert, if_pos hc]
        obtain ⟨j, hj⟩ := hvals _ (mem_of_dictGetD 0 hc)
        simp only at hj
        rw [hj, add_sub_cancel_left]
        exact hb j
      · rw [storedPert, if_neg hc]
        norm_num
    refine ⟨L1.map Prod.fst, L2.map Prod.fst, ?_, ?_, ?_⟩
    · rw [hmv, ← hkeys, hSdec2]
      simp [dictKeys]
    · intro c hc
      obtain ⟨y, hyL1, hyc⟩ := List.mem_map.mp hc
      have hyS : y ∈ vote_scores_go a rand alive [] 0 := by
        rw [hSdec2]
        exact List.mem_append_left _ hyL1
      rw [hmv, ← hyc, hscore y hyS, hscore (pyFold s0 srest) hrS]
      exact hlt y hyL1
    · intro c hc
      rcases List.mem_append.mp hc with h | h
      · obtain ⟨y, hyL1, hyc⟩ := List.mem_map.mp h
        have hyS : y ∈ vote_scores_go a rand alive [] 0 := by
          rw [hSdec2]
          exact List.mem_append_left _ hyL1
        rw [hmv, ← hyc, hscore y hyS, hscore (pyFold s0 srest) hrS]
        exact le_of_lt (hlt y hyL1)
      · rcases List.mem_cons.mp h with h' | h'
        · rw [h']
        · obtain ⟨y, hyL2, hyc⟩ := List.mem_map.mp h'
          have hyS : y ∈ vote_scores_go a rand alive [] 0 := by
            rw [hSdec2]
            refine List.mem_append_right _ (List.mem_cons_of_mem _ hyL2)
          rw [hmv, ← hyc, hscore y hyS, hscore (pyFold s0 srest) hrS]
          exact hle y hyL2

/-- Witness for C2 at a concrete agent, roster and zero perturbation stream. -/
theorem make_vote_decision_argmax_witness :
    (∀ k : ℕ, |(fun _ : ℕ => (0:ℚ)) k| ≤ 1/10) ∧
    (make_vote_decision cexInit ["Alice", "Bob"] (fun _ => 0) = cexInit.name ↔
      ∀ p ∈ ["Alice", "Bob"], p = cexInit.name) :=
  ⟨fun _ => by norm_num,
   (make_vote_decision_argmax cexInit ["Alice", "Bob"] (fun _ => 0)
     (fun _ => by norm_num)).1⟩

-- ==================== Voting phase (C7) ====================

/-- Python `game.agents[n] = f(game.agents[n])`: transform the value stored
at a key, leaving every other entry alone. -/
def updateAgent (agents : List (String × Agent)) (n : String) (f : Agent → Agent) :
    List (String × Agent) :=
  agents.map (fun p => if p.1 = n then (p.1, f p.2) else p)

/-- The tally loop of both voting implementations:
`vote_counts[target] = vote_counts.get(target, 0) + 1` over the votes dict
in insertion order. -/
def tally_votes (votes : List (String × String)) : List (String × ℕ) :=
  votes.foldl (fun counts v => dictSet counts v.2 (dictGetD counts v.2 0 + 1)) []

/-- `max(vote_counts.values())`.  All tallied counts are at least 1, so the 0
seed of the fold never disturbs the maximum the Python `max` computes. -/
def max_votes (vote_counts : List (String × ℕ)) : ℕ :=
  (vote_counts.map Prod.snd).foldl max 0

/-- `[p for p, c in vote_counts.items() if c == max_votes]`. -/
def top_candidates (vote_counts : List (String × ℕ)) : List String :=
  (vote_counts.filter (fun pc => pc.2 = max_votes vote_counts)).map Prod.fst

/-- The tally-and-eliminate tail of `PsychologicalGame.run_voting`
(engine.py lines 604-630); the vote-collection loop above it supplies the
`votes` mapping voter → target.  A unique top candidate is marked dead and
every other living agent receives an `eliminated` event of impact 0.2; a tie
(or an empty tally) changes nothing. -/
def run_voting_tally (gs : GameState) (votes : List (String × String)) : GameState :=
  if tally_votes votes = [] then gs
  else
    match top_candidates (tally_votes votes) with
    | [eliminated] =>
        { gs with agents :=
            ((updateAgent gs.agents eliminated (fun ag => { ag with alive := false })).map
              (fun p =>
                if p.1 ≠ eliminated ∧ p.2.alive
                then (p.1, update_psychology p.2 "eliminated" eliminated eliminated 0.2)
                else p)) }
    | _ => gs

/-- The AI vote collection of `run_voting_phase` (app.py): one
`make_vote_decision` vote per living non-human agent, in roster order; the
human never contributes (their HTTP vote is only broadcast, never stored). -/
def collect_ai_votes (gs : GameState) (rand : String → ℕ → ℚ) : List (String × String) :=
  (get_alive_players gs).filterMap (fun n =>
    match dictGet? gs.agents n with
    | some ag =>
        if ag.alive then
          if ag.is_human then none
          else some (n, make_vote_decision ag (get_alive_players gs) (rand n))
        else none
    | none => none)

/-- `run_voting_phase` (app.py lines 410-471): collect the AI votes, return
early while fewer votes than living non-human agents are in (never the case,
see `collect_ai_votes_length`), tally, mark a unique top candidate dead
(without firing any psychology event), and always advance the phase to
NIGHT_ACTION. -/
def run_voting_phase (gs : GameState) (rand : String → ℕ → ℚ) : GameState :=
  if (collect_ai_votes gs rand).length
      < gs.agents.countP (fun p => p.2.alive && !p.2.is_human) then gs
  else
    { (if tally_votes (collect_ai_votes gs rand) = [] then gs
       else
         match top_candidates (tally_votes (collect_ai_votes gs rand)) with
         | [eliminated] =>
             { gs with agents :=
                 (updateAgent gs.agents eliminated (fun ag => { ag with alive := false })) }
         | _ => gs) with
      phase := GamePhase.NIGHT_ACTION }

lemma dictGet?_of_mem_nodup {β : Type} {m : List (String × β)} {k : String} {v : β}
    (hnd : (dictKeys m).Nodup) (h : (k, v) ∈ m) : dictGet? m k = some v := by
  induction m with
  | nil => simp at h
  | cons q rest ih =>
    obtain ⟨k', v'⟩ := q
    have hpair : k' ∉ dictKeys rest ∧ (dictKeys rest).Nodup := List.nodup_cons.mp hnd
    rcases List.mem_cons.mp h with h' | h'
    · injection h' with hk hv
      subst hk
      subst hv
      simp [dictGet?]
    · have hk : k' ≠ k := by
        intro he
        subst he
        have hmem : k' ∈ dictKeys rest := by
          simpa [dictKeys] using List.mem_map_of_mem Prod.fst h'
        exact hpair.1 hmem
      simp only [dictGet?, if_neg hk]
      exact ih hpair.2 h'

lemma filterMap_length_countP {α β : Type} (f : α → Option β) (g : α → Bool) :
    ∀ l : List α, (∀ a ∈ l, (f a).isSome = g a) →
      (l.filterMap f).length = l.countP g := by
  intro l
  induction l with
  | nil => intro _; rfl
  | cons x xs ih =>
    intro h
    have hx := h x (List.mem_cons_self _ _)
    have hrest := ih (fun a ha => h a (List.mem_cons_of_mem _ ha))
    rcases hopt : f x with _ | b
    · rw [hopt] at hx
      simp only [Option.isSome_none] at hx
      rw [List.filterMap_cons_none hopt, List.countP_cons, ← hx]
      simpa using hrest
    · rw [hopt] at hx
      simp only [Option.isSome_some] at hx
      rw [List.filterMap_cons_some hopt, List.countP_cons, ← hx]
      simp [hrest]

/-- The app voting phase never waits: the collected AI votes are exactly one
per living non-human agent. -/
lemma collect_ai_votes_length (gs : GameState) (rand : String → ℕ → ℚ)
    (hnd : (dictKeys gs.agents).Nodup) :
    (collect_ai_votes gs rand).length
      = gs.agents.countP (fun p => p.2.alive && !p.2.is_human) := by
  unfold collect_ai_votes get_alive_players
  rw [List.filterMap_map]
  rw [filterMap_length_countP _ (fun p => !p.2.is_human) _ ?_]
  · rw [List.countP_filter]
    refine List.countP_congr ?_
    intro p _
    cases hal : p.2.alive <;> cases hh : p.2.is_human <;> simp [hal, hh]
  · intro p hp
    have hmem : p ∈ gs.agents := List.mem_of_mem_filter hp
    have hal : p.2.alive = true := by
      have := List.of_mem_filter hp
      simpa using this
    have hget : dictGet? gs.agents p.1 = some p.2 :=
      dictGet?_of_mem_nodup hnd (by exact hmem)
    simp only [Function.comp_apply, hget, hal, if_true]
    cases hh : p.2.is_human <;> simp [hh]

/-- C7: in both voting implementations a tally whose maximum vote count is
shared by two or more candidates changes no agent (in particular no alive
flag), while the app layer still advances the phase to NIGHT_ACTION; a
unique top candidate is marked dead — with an `eliminated` event of impact
0.2 on every other living agent in the engine's `run_voting`, and with no
events in the app's `run_voting_phase` — and the phase advances regardless. -/
theorem voting_tie_and_unique_elimination (gs : GameState)
    (votes : List (String × String)) (rand : String → ℕ → ℚ)
    (hnd : (dictKeys gs.agents).Nodup) :
    (2 ≤ (top_candidates (tally_votes votes)).length →
      run_voting_tally gs votes = gs) ∧
    (∀ c, top_candidates (tally_votes votes) = [c] →
      run_voting_tally gs votes = { gs with agents := gs.agents.map (fun p =>
        if p.1 = c then (p.1, { p.2 with alive := false })
        else if p.2.alive then (p.1, update_psychology p.2 "eliminated" c c 0.2)
        else p) }) ∧
    ((run_voting_phase gs rand).phase = GamePhase.NIGHT_ACTION) ∧
    (2 ≤ (top_candidates (tally_votes (collect_ai_votes gs rand))).length →
      run_voting_phase gs rand = { gs with phase := GamePhase.NIGHT_ACTION }) ∧
    (∀ c, top_candidates (tally_votes (collect_ai_votes gs rand)) = [c] →
      run_voting_phase gs rand = { gs with
        agents := gs.agents.map (fun p =>
          if p.1 = c then (p.1, { p.2 with alive := false }) else p),
        phase := GamePhase.NIGHT_ACTION }) := by
  have hlt : ¬ (collect_ai_votes gs rand).length
      < gs.agents.countP (fun p => p.2.alive && !p.2.is_human) := by
    rw [collect_ai_votes_length gs rand hnd]
    exact lt_irrefl _
  refine ⟨?_, ?_, ?_, ?_, ?_⟩
  · intro h2
    unfold run_voting_tally
    by_cases hc : tally_votes votes = []
    · rw [if_pos hc]
    · rw [if_neg hc]
      rcases hcand : top_candidates (tally_votes votes) with _ | ⟨c, _ | ⟨c2, cs⟩⟩
      · rfl
      · rw [hcand] at h2
        simp at h2
      · rfl
  · intro c hcand
    have hc : tally_votes votes ≠ [] := by
      intro h0
      rw [h0] at hcand
      simp [top_candidates] at hcand
    unfold run_voting_tally
    rw [if_neg hc, hcand]
    have hmap : (updateAgent gs.agents c (fun ag => { ag with alive := false })).map
        (fun p => if p.1 ≠ c ∧ p.2.alive
          then (p.1, update_psychology p.2 "eliminated" c c 0.2) else p)
        = gs.agents.map (fun p =>
            if p.1 = c then (p.1, { p.2 with alive := false })
            else if p.2.alive then (p.1, update_psychology p.2 "eliminated" c c 0.2)
            else p) := by
      rw [updateAgent, List.map_map]
      refine List.map_congr_left ?_
      intro p _
      by_cases hp : p.1 = c
      · simp [Function.comp, hp]
      · by_cases ha : p.2.alive <;> simp [Function.comp, hp, ha]
    exact congrArg (fun ags => { gs with agents := ags }) hmap
  · unfold run_voting_phase
    rw [if_neg hlt]
  · intro h2
    unfold run_voting_phase
    rw [if_neg hlt]
    by_cases hc : tally_votes (collect_ai_votes gs rand) = []
    · rw [if_pos hc]
    · rw [if_neg hc]
      rcases hcand : top_candidates (tally_votes (collect_ai_votes gs rand))
        with _ | ⟨c, _ | ⟨c2, cs⟩⟩
      · rfl
      · rw [hcand] at h2
        simp at h2
      · rfl
  · intro c hcand
    have hc : tally_votes (collect_ai_votes gs rand) ≠ [] := by
      intro h0
      rw [h0] at hcand
      simp [top_candidates] at hcand
    unfold run_voting_phase
    rw [if_neg hlt, if_neg hc, hcand]
    rfl

/-- Witness for C7: a concrete two-way tie changes nothing in the engine
tally. -/
theorem voting_tie_and_unique_elimination_witness :
    (dictKeys gsAllVillagers.agents).Nodup ∧
    2 ≤ (top_candidates (tally_votes [("Alice", "Bob"), ("Charlie", "Diana")])).length ∧
    run_voting_tally gsAllVillagers [("Alice", "Bob"), ("Charlie", "Diana")]
      = gsAllVillagers :=
  ⟨by decide, by decide,
   (voting_tie_and_unique_elimination gsAllVillagers
     [("Alice", "Bob"), ("Charlie", "Diana")] (fun _ _ => 0) (by decide)).1 (by decide)⟩

-- ==================== Night phase (C8) ====================

/-- `player in self.suspicion_scores and self.suspicion_scores[player] > 0.5`. -/
def suspicion_on_me (a : Agent) (p : String) : Bool :=
  match dictGet? a.suspicion_scores p with
  | some v => decide (v > 0.5)
  | none => false

/-- The per-candidate night score before the random factor:
`-trust * 2.0` plus `0.5` when the candidate suspects the wolf. -/
def night_base_score (a : Agent) (p : String) : ℚ :=
  -(dictGetD a.trust_scores p 0.3) * 2.0 + (if suspicion_on_me a p then 0.5 else 0)

/-- The best-target scan of `wolf_night_action`: `best_score` starts at
`-inf` (modelled by `none`), every candidate draws a `uniform(-0.2, 0.2)`,
and the best is replaced only on a strictly greater score. -/
def night_go (a : Agent) (rand : ℕ → ℚ) :
    List String → Option (String × ℚ) → ℕ → Option (String × ℚ)
  | [], best, _ => best
  | p :: ps, best, k =>
      let score := night_base_score a p + rand k
      match best with
      | none => night_go a rand ps (some (p, score)) (k + 1)
      | some b =>
          if score > b.2 then night_go a rand ps (some (p, score)) (k + 1)
          else night_go a rand ps (some b) (k + 1)

/-- `Agent.wolf_night_action`: `none` for non-wolves and dead agents, `none`
when no other candidate is alive, otherwise the best-scoring candidate. -/
def wolf_night_action (a : Agent) (alive_players : List String) (rand : ℕ → ℚ) :
    Option String :=
  if a.role ≠ Role.WOLF ∨ ¬ a.alive then none
  else
    if alive_players.filter (fun p => p ≠ a.name) = [] then none
    else (night_go a rand (alive_players.filter (fun p => p ≠ a.name)) none 0).map Prod.fst

/-- `wolves = [name for name in alive if game.agents[name].role == WOLF]`. -/
def night_wolves (gs : GameState) (alive : List String) : List String :=
  alive.filter (fun n => (dictGet? gs.agents n).any (fun ag => ag.role == Role.WOLF))

/-- The first-wolf selection loop shared by `run_night_action` (engine.py)
and `run_night_phase` (app.py): walk the wolves in roster order and `break`
at the first whose decision returns a target; later wolves are never
consulted. -/
def first_wolf_kill (gs : GameState) (alive : List String) (rand : String → ℕ → ℚ) :
    List String → Option String
  | [] => none
  | w :: ws =>
      match (dictGet? gs.agents w).bind (fun ag => wolf_night_action ag alive (rand w)) with
      | some t => some t
      | none => first_wolf_kill gs alive rand ws

/-- `PsychologicalGame.run_night_action` (engine.py lines 632-667): compute
the victim by the first-wolf rule, mark them dead, record `night_kill`, and
fire a `killed` event (impact 0.4) on every other living agent. -/
def run_night_action (gs : GameState) (rand : String → ℕ → ℚ) : GameState :=
  if night_wolves gs (get_alive_players gs) = [] then gs
  else
    match first_wolf_kill gs (get_alive_players gs) rand
        (night_wolves gs (get_alive_players gs)) with
    | none => gs
    | some t =>
        { gs with
          night_kill := some t,
          agents :=
            ((updateAgent gs.agents t (fun ag => { ag with alive := false })).map
              (fun p =>
                if p.1 ≠ t ∧ p.2.alive
                then (p.1, update_psychology p.2 "killed" t t 0.4)
                else p)) }

/-- `run_night_phase` (app.py lines 474-504): same first-wolf victim rule,
marking the victim dead with no psychology events. -/
def run_night_phase (gs : GameState) (rand : String → ℕ → ℚ) : GameState :=
  if night_wolves gs (get_alive_players gs) = [] then gs
  else
    match first_wolf_kill gs (get_alive_players gs) rand
        (night_wolves gs (get_alive_players gs)) with
    | none => gs
    | some t =>
        { gs with agents := (updateAgent gs.agents t (fun ag => { ag with alive := false })) }

lemma update_psychology_alive (a : Agent) (et s t : String) (i : ℚ) :
    (update_psychology a et s t i).alive = a.alive := rfl

/-- Lookup through a key-preserving entrywise map. -/
lemma dictGet?_map_keyfix {g : String × Agent → String × Agent}
    (hg : ∀ p, (g p).1 = p.1) (m : List (String × Agent)) (n : String) :
    dictGet? (m.map g) n = (dictGet? m n).map (fun v => (g (n, v)).2) := by
  induction m with
  | nil => rfl
  | cons p rest ih =>
    simp only [List.map_cons, dictGet?]
    rw [hg p]
    by_cases h : p.1 = n
    · rw [if_pos h, if_pos h]
      subst h
      rfl
    · rw [if_neg h, if_neg h]
      exact ih

/-- The decisive first wolf fixes the kill, whatever later wolves would do. -/
lemma first_wolf_kill_decomp (gs : GameState) (alive : List String)
    (rand : String → ℕ → ℚ) (pre post : List String) (w1 t : String)
    (hpre : ∀ w ∈ pre,
      (dictGet? gs.agents w).bind (fun ag => wolf_night_action ag alive (rand w)) = none)
    (hw1 : (dictGet? gs.agents w1).bind
      (fun ag => wolf_night_action ag alive (rand w1)) = some t) :
    first_wolf_kill gs alive rand (pre ++ w1 :: post) = some t := by
  induction pre with
  | nil =>
    simp only [List.nil_append, first_wolf_kill]
    rw [hw1]
  | cons w ws ih =>
    simp only [List.cons_append, first_wolf_kill]
    rw [hpre w (List.mem_cons_self _ _)]
    exact ih (fun w' hw' => hpre w' (List.mem_cons_of_mem _ hw'))

/-- C8: in every night phase the victim is fixed by the first wolf in roster
iteration order whose decision returns a target — the hypotheses constrain
only the wolves up to that first decider, so later wolves' decisions are
irrelevant — and at most one agent is killed: the victim's alive flag
becomes false and every other agent's alive flag is unchanged, in both the
engine's `run_night_action` and the app's `run_night_phase`. -/
theorem night_first_wolf_decides (gs : GameState) (rand : String → ℕ → ℚ)
    (pre post : List String) (w1 t : String)
    (hw : night_wolves gs (get_alive_players gs) = pre ++ w1 :: post)
    (hpre : ∀ w ∈ pre, (dictGet? gs.agents w).bind
      (fun ag => wolf_night_action ag (get_alive_players gs) (rand w)) = none)
    (hw1 : (dictGet? gs.agents w1).bind
      (fun ag => wolf_night_action ag (get_alive_players gs) (rand w1)) = some t) :
    first_wolf_kill gs (get_alive_players gs) rand
      (night_wolves gs (get_alive_players gs)) = some t ∧
    (run_night_action gs rand).night_kill = some t ∧
    ((dictGet? (run_night_action gs rand).agents t).map Agent.alive
      = (dictGet? gs.agents t).map (fun _ => false)) ∧
    (∀ n, n ≠ t → (dictGet? (run_night_action gs rand).agents n).map Agent.alive
      = (dictGet? gs.agents n).map Agent.alive) ∧
    ((dictGet? (run_night_phase gs rand).agents t).map Agent.alive
      = (dictGet? gs.agents t).map (fun _ => false)) ∧
    (∀ n, n ≠ t → (dictGet? (run_night_phase gs rand).agents n).map Agent.alive
      = (dictGet? gs.agents n).map Agent.alive) := by
  have hkill : first_wolf_kill gs (get_alive_players gs) rand
      (night_wolves gs (get_alive_players gs)) = some t := by
    rw [hw]
    exact first_wolf_kill_decomp gs _ rand pre post w1 t hpre hw1
  have hne : night_wolves gs (get_alive_players gs) ≠ [] := by
    rw [hw]
    simp
  have hg1 : ∀ p : String × Agent,
      ((fun p : String × Agent =>
        if p.1 = t then (p.1, { p.2 with alive := false }) else p) p).1 = p.1 := by
    intro p
    by_cases h : p.1 = t <;> simp [h]
  have hg2 : ∀ p : String × Agent,
      ((fun p : String × Agent =>
        if p.1 ≠ t ∧ p.2.alive
        then (p.1, update_psychology p.2 "killed" t t 0.4) else p) p).1 = p.1 := by
    intro p
    by_cases h : p.1 ≠ t ∧ p.2.alive = true <;> simp [h]
  have heng : run_night_action gs rand = { gs with
      night_kill := some t,
      agents := ((updateAgent gs.agents t (fun ag => { ag with alive := false })).map
        (fun p => if p.1 ≠ t ∧ p.2.alive
          then (p.1, update_psychology p.2 "killed" t t 0.4) else p)) } := by
    unfold run_night_action
    rw [if_neg hne, hkill]
  have happ : run_night_phase gs rand = { gs with
      agents := (updateAgent gs.agents t (fun ag => { ag with alive := false })) } := by
    unfold run_night_phase
    rw [if_neg hne, hkill]
  refine ⟨hkill, by rw [heng], ?_, ?_, ?_, ?_⟩
  · rw [heng]
    simp only [updateAgent]
    rw [dictGet?_map_keyfix hg2, dictGet?_map_keyfix hg1]
    rcases hq : dictGet? gs.agents t with _ | a
    · rfl
    · simp
  · intro n hn
    rw [heng]
    simp only [updateAgent]
    rw [dictGet?_map_keyfix hg2, dictGet?_map_keyfix hg1]
    rcases hq : dictGet? gs.agents n with _ | a
    · rfl
    · by_cases ha : a.alive = true <;>
        simp [hn, ha, update_psychology_alive]
  · rw [happ]
    simp only [updateAgent]
    rw [dictGet?_map_keyfix hg1]
    rcases hq : dictGet? gs.agents t with _ | a
    · rfl
    · simp
  · intro n hn
    rw [happ]
    simp only [updateAgent]
    rw [dictGet?_map_keyfix hg1]
    rcases hq : dictGet? gs.agents n with _ | a
    · rfl
    · simp [hn]

/-- A bare agent record used by the night-phase witness. -/
def nightAgent (n : String) (r : Role) : Agent :=
  { name := n, role := r, personality := "p", is_human := false,
    trust_scores := [], suspicion_scores := [], emotional_state := {},
    memory_log := [], alive := true, vote_count := 0, influence := 1 }

/-- A two-wolf game for the night-phase witness. -/
def gsNight : GameState :=
  { agents := [("W1", nightAgent "W1" Role.WOLF), ("W2", nightAgent "W2" Role.WOLF)],
    phase := GamePhase.NIGHT_ACTION, day := 1, turn := 0, vote_results := [],
    night_kill := none, winner := none }

/-- Witness for C8: with two living wolves, the first wolf's decision (here
the only other living agent, "W2") fixes the victim. -/
theorem night_first_wolf_decides_witness :
    (night_wolves gsNight (get_alive_players gsNight) = [] ++ "W1" :: ["W2"]) ∧
    (∀ w ∈ ([] : List String), (dictGet? gsNight.agents w).bind
      (fun ag => wolf_night_action ag (get_alive_players gsNight)
        ((fun _ _ => (0:ℚ)) w)) = none) ∧
    ((dictGet? gsNight.agents "W1").bind
      (fun ag => wolf_night_action ag (get_alive_players gsNight)
        ((fun _ _ => (0:ℚ)) "W1")) = some "W2") ∧
    first_wolf_kill gsNight (get_alive_players gsNight) (fun _ _ => 0)
      (night_wolves gsNight (get_alive_players gsNight)) = some "W2" :=
  ⟨by decide, by simp, by decide,
   (night_first_wolf_decides gsNight (fun _ _ => 0) [] ["W2"] "W1" "W2"
     (by decide) (by simp) (by decide)).1⟩

-- ==================== player_vote endpoint (C9) ====================

/-- `player_vote` (app.py lines 243-279): reject with an HTTP 400 error when
the phase is not VOTING, when no human agent exists, or when the target is
not a roster member; otherwise accept.  The handler never mutates the game —
it only prints and broadcasts — so the state is returned untouched on every
path. -/
def player_vote (gs : GameState) (target : String) : Except String Unit × GameState :=
  if gs.phase ≠ GamePhase.VOTING then (Except.error "当前不是投票阶段", gs)
  else
    match (gs.agents.find? (fun p => p.2.is_human)).map Prod.snd with
    | none => (Except.error "未找到人类玩家", gs)
    | some _ =>
        if target ∉ dictKeys gs.agents then (Except.error "投票目标不存在", gs)
        else (Except.ok (), gs)

/-- C9: a vote is accepted only in the VOTING phase with a roster-member
target; a wrong phase or an unknown target is rejected with an error; and on
every path — accepted or rejected — the game state is left untouched. -/
theorem player_vote_validation (gs : GameState) (target : String) :
    ((player_vote gs target).2 = gs) ∧
    ((player_vote gs target).1 = Except.ok () →
      gs.phase = GamePhase.VOTING ∧ target ∈ dictKeys gs.agents) ∧
    (gs.phase ≠ GamePhase.VOTING ∨ target ∉ dictKeys gs.agents →
      ∃ msg, (player_vote gs target).1 = Except.error msg) := by
  unfold player_vote
  by_cases hp : gs.phase = GamePhase.VOTING
  · rw [if_neg (by simp [hp])]
    rcases hh : (gs.agents.find? (fun p => p.2.is_human)).map Prod.snd with _ | hu
    all_goals rw [hh]
    · refine ⟨rfl, ?_, ?_⟩
      · intro h
        simp at h
      · intro _
        exact ⟨"未找到人类玩家", rfl⟩
    · by_cases ht : target ∈ dictKeys gs.agents
      · rw [if_neg (by simp [ht])]
        refine ⟨rfl, fun _ => ⟨hp, ht⟩, ?_⟩
        intro h
        rcases h with h | h
        · exact absurd hp h
        · exact absurd ht h
      · rw [if_pos ht]
        refine ⟨rfl, ?_, fun _ => ⟨"投票目标不存在", rfl⟩⟩
        intro h
        simp at h
  · rw [if_pos hp]
    refine ⟨rfl, ?_, fun _ => ⟨"当前不是投票阶段", rfl⟩⟩
    intro h
    simp at h

/-- Witness for C9: in a freshly created game (phase DAY_DISCUSSION) a vote
for "Alice" is rejected and the state is untouched. -/
theorem player_vote_validation_witness :
    (gsAllVillagers.phase ≠ GamePhase.VOTING ∨ "Alice" ∉ dictKeys gsAllVillagers.agents) ∧
    (∃ msg, (player_vote gsAllVillagers "Alice").1 = Except.error msg) ∧
    (player_vote gsAllVillagers "Alice").2 = gsAllVillagers :=
  ⟨Or.inl (by decide),
   (player_vote_validation gsAllVillagers "Alice").2.2 (Or.inl (by decide)),
   (player_vote_validation gsAllVillagers "Alice").1⟩
